import Mathlib

/-!
Shallow embedding of the Keccak hash engine declared in `keccak.h`
(Crypto++). The header provides the constructor, the accessors
`DigestSize` and `AlgorithmName`, the rate formula `r()` and the four
fixed-size preset classes. The bodies of `Update`, `Restart` and
`TruncatedFinal`, and the permutation core, are not in the available
sources; where a claim needs them they are modelled from the
specification, parametric in the permutation.
-/

namespace Keccak

/-- The modulus of a C++ `unsigned int`, `2 ^ 32`. -/
def U32 : Nat := 4294967296

/-- Unsigned 32-bit truncation, the semantics of storing into `unsigned int`. -/
def u32 (n : Nat) : Nat := n % U32

/-- Unsigned 32-bit subtraction `a - b` as computed by C++ on `unsigned int`
operands (`a < 2^32` at every use site in this file). -/
def u32sub (a b : Nat) : Nat := (a + U32 - b % U32) % U32

/-- Body of `Keccak::r`: the expression `200 - 2 * m_digestSize` evaluated in
`unsigned int` arithmetic. -/
def keccak_r (d : Nat) : Nat := u32sub 200 (u32 (2 * d))

/-- The data members declared in `keccak.h`: the sponge state (25 lanes of 64
bits, addressed throughout as 200 raw bytes, little-endian per lane), the
digest size and the absorb counter. -/
structure KeccakRaw where
  m_digestSize : Nat
  m_state : List Nat
  m_counter : Nat
deriving DecidableEq

/-- Constructor `Keccak::Keccak(unsigned int digestSize)`: stores the digest
size with no validation whatsoever, then calls `Restart()`. The body of
`Restart` is outside the available sources; per the specification it zeroes
the state and the counter. -/
def mkKeccak (digestSize : Nat) : KeccakRaw :=
  { m_digestSize := u32 digestSize
    m_state := List.replicate 200 0
    m_counter := 0 }

/-- Accessor `Keccak::DigestSize`, returning `m_digestSize`. -/
def DigestSize (e : KeccakRaw) : Nat := e.m_digestSize

/-- Accessor `Keccak::AlgorithmName`, returning
`"Keccak-" + IntToString(m_digestSize*8)`; the product `m_digestSize*8` is
computed in `unsigned int` arithmetic and wraps modulo 2^32. -/
def AlgorithmName (e : KeccakRaw) : String :=
  "Keccak-" ++ Nat.repr (u32 (e.m_digestSize * 8))

/-- Constant `Keccak_224::DIGESTSIZE`. -/
def Keccak_224_DIGESTSIZE : Nat := 28

/-- Constant `Keccak_256::DIGESTSIZE`. -/
def Keccak_256_DIGESTSIZE : Nat := 32

/-- Constant `Keccak_384::DIGESTSIZE`. -/
def Keccak_384_DIGESTSIZE : Nat := 48

/-- Constant `Keccak_512::DIGESTSIZE`. -/
def Keccak_512_DIGESTSIZE : Nat := 64

/-- Default-constructed `Keccak_224`, calling `Keccak(DIGESTSIZE)`. -/
def Keccak_224 : KeccakRaw := mkKeccak Keccak_224_DIGESTSIZE

/-- Default-constructed `Keccak_256`, calling `Keccak(DIGESTSIZE)`. -/
def Keccak_256 : KeccakRaw := mkKeccak Keccak_256_DIGESTSIZE

/-- Default-constructed `Keccak_384`, calling `Keccak(DIGESTSIZE)`. -/
def Keccak_384 : KeccakRaw := mkKeccak Keccak_384_DIGESTSIZE

/-- Default-constructed `Keccak_512`, calling `Keccak(DIGESTSIZE)`. -/
def Keccak_512 : KeccakRaw := mkKeccak Keccak_512_DIGESTSIZE

/-- Literal returned by `Keccak_224::StaticAlgorithmName`. -/
def Keccak_224_StaticAlgorithmName : String := "Keccak-224"

/-- Literal returned by `Keccak_256::StaticAlgorithmName`. -/
def Keccak_256_StaticAlgorithmName : String := "Keccak-256"

/-- Literal returned by `Keccak_384::StaticAlgorithmName`. -/
def Keccak_384_StaticAlgorithmName : String := "Keccak-384"

/-- Literal returned by `Keccak_512::StaticAlgorithmName`. -/
def Keccak_512_StaticAlgorithmName : String := "Keccak-512"

/-- Modelled from the spec: the error taxonomy of §7, needed because the
bodies of `Update`, `Restart` and `TruncatedFinal` are not in the available
sources. -/
inductive SpongeError where
  | invalidConfig
  | invalidSize
  | finalizedState
deriving DecidableEq

/-- Modelled from the spec: the sponge engine of §4.2 with its two-state
lifecycle — Absorbing is encoded as `finalized = false`, Finalized as
`finalized = true`. The state is addressed as 200 raw bytes. -/
structure Engine where
  digestSize : Nat
  state : List Nat
  counter : Nat
  finalized : Bool
deriving DecidableEq

/-- Modelled from the spec: `construct(digestSize)` of §6 — requires
`digestSize ∈ (0,100)`, starts Absorbing with zeroed state and counter. -/
def constructE (d : Nat) : Except SpongeError Engine :=
  if 0 < d ∧ d < 100 then
    Except.ok { digestSize := d, state := List.replicate 200 0, counter := 0, finalized := false }
  else
    Except.error SpongeError.invalidConfig

/-- Rate of an engine in bytes, `r = 200 - 2d` (§3); on the valid digest
range this agrees with the source formula `keccak_r`. -/
def rE (e : Engine) : Nat := 200 - 2 * e.digestSize

/-- Modelled from the spec: `Reset` of §4.2 — zero the whole state, set the
counter to 0, return to Absorbing; callable in any state. -/
def restartE (e : Engine) : Engine :=
  { digestSize := e.digestSize, state := List.replicate 200 0, counter := 0, finalized := false }

/-- Modelled from the spec: absorbing a single byte (§4.2) — XOR it into the
state byte at the counter offset and increment the counter; when the counter
reaches the rate `r`, run the permutation `F` and reset the counter to 0.
The permutation core of §4.1 is not in the available sources, so it is the
parameter `F`. -/
def absorbStep (F : List Nat → List Nat) (r : Nat) (sc : List Nat × Nat) (b : Nat) :
    List Nat × Nat :=
  let st := sc.1.set sc.2 ((sc.1.getD sc.2 0).xor (b % 256))
  if sc.2 + 1 = r then (F st, 0) else (st, sc.2 + 1)

/-- Modelled from the spec: `Update` of §4.2 — valid only while Absorbing,
folds `absorbStep` over the input bytes; zero-length input is a no-op. -/
def updateE (F : List Nat → List Nat) (e : Engine) (input : List Nat) :
    Except SpongeError Engine :=
  if e.finalized then Except.error SpongeError.finalizedState
  else
    let sc := input.foldl (absorbStep F (rE e)) (e.state, e.counter)
    Except.ok { digestSize := e.digestSize, state := sc.1, counter := sc.2, finalized := false }

/-- A sequence of `Update` calls, one per chunk, stopping at the first
error. -/
def updateChain (F : List Nat → List Nat) (e : Engine) :
    List (List Nat) → Except SpongeError Engine
  | [] => Except.ok e
  | c :: cs =>
    match updateE F e c with
    | Except.ok e' => updateChain F e' cs
    | Except.error er => Except.error er

/-- Modelled from the spec: the squeeze loop of §4.2, fuelled by the requested
size — copy `min size r` bytes from the state; while output remains, permute
and repeat. -/
def squeezeGo (F : List Nat → List Nat) (r : Nat) : Nat → Nat → List Nat → List Nat
  | 0, _, _ => []
  | fuel + 1, size, st =>
    if size ≤ r then st.take size
    else st.take r ++ squeezeGo F r fuel (size - r) (F st)

/-- Squeeze `size` output bytes from state `st` at rate `r` (fuel `size`
suffices whenever `1 ≤ r`). -/
def squeezeOut (F : List Nat → List Nat) (r size : Nat) (st : List Nat) : List Nat :=
  squeezeGo F r size size st

/-- Modelled from the spec: the padding of §4.2 — XOR a domain-separation
marker byte into the state at the counter position, then set the top bit of
the last byte of the rate-sized block. The exact marker value is left open by
the spec (§9), so it is the parameter `pad`. -/
def padBlock (pad r counter : Nat) (st : List Nat) : List Nat :=
  let st1 := st.set counter ((st.getD counter 0).xor (pad % 256))
  st1.set (r - 1) ((st1.getD (r - 1) 0) ||| 128)

/-- Modelled from the spec: `Finalize(size)` of §4.2/§6 — valid only while
Absorbing, requires `size ≤ digestSize` (a defined error otherwise, never a
silent clamp), pads, permutes exactly once, squeezes `size` bytes, and leaves
the engine Finalized. -/
def finalizeE (F : List Nat → List Nat) (pad : Nat) (e : Engine) (size : Nat) :
    Except SpongeError (List Nat × Engine) :=
  if e.finalized then Except.error SpongeError.finalizedState
  else if e.digestSize < size then Except.error SpongeError.invalidSize
  else
    let st := F (padBlock pad (rE e) e.counter e.state)
    Except.ok (squeezeOut F (rE e) size st,
      { digestSize := e.digestSize, state := st, counter := 0, finalized := true })

/-- Engine states reachable through the public interface of §6. -/
inductive ReachableE (F : List Nat → List Nat) (pad : Nat) : Engine → Prop where
  | construct (d : Nat) (e : Engine) :
      constructE d = Except.ok e → ReachableE F pad e
  | update (e e' : Engine) (data : List Nat) :
      ReachableE F pad e → updateE F e data = Except.ok e' → ReachableE F pad e'
  | restart (e : Engine) : ReachableE F pad e → ReachableE F pad (restartE e)
  | finalize (e e' : Engine) (out : List Nat) (size : Nat) :
      ReachableE F pad e → finalizeE F pad e size = Except.ok (out, e') → ReachableE F pad e'

/-- C1: for every engine configured with a digest size `d ≤ 100`, the rate
`r()` equals `200 - 2d` bytes and rate plus capacity (`c = 2d`) is exactly
200 bytes. -/
theorem rate_capacity_invariant (d : Nat) (h : d ≤ 100) :
    keccak_r (DigestSize (mkKeccak d)) = 200 - 2 * d ∧
    keccak_r (DigestSize (mkKeccak d)) + 2 * d = 200 := by
  have hd : DigestSize (mkKeccak d) = d := by
    simp only [DigestSize, mkKeccak, u32, U32]
    omega
  rw [hd]
  unfold keccak_r u32sub u32 U32
  constructor <;> omega

/-- Witness for C1 at digest size 32: the rate is 136 and rate plus capacity
is 200. -/
theorem rate_capacity_invariant_witness :
    keccak_r (DigestSize (mkKeccak 32)) = 200 - 2 * 32 ∧
    keccak_r (DigestSize (mkKeccak 32)) + 2 * 32 = 200 :=
  rate_capacity_invariant 32 (by decide)

/-- C2 counterexample: constructing with digest size 0 or 150 is not rejected
by the source constructor — it produces a fully formed engine — whereas the
spec-side constructor rejects both. -/
theorem construct_unvalidated_cex :
    mkKeccak 0 = { m_digestSize := 0, m_state := List.replicate 200 0, m_counter := 0 } ∧
    mkKeccak 150 = { m_digestSize := 150, m_state := List.replicate 200 0, m_counter := 0 } ∧
    constructE 0 = Except.error SpongeError.invalidConfig ∧
    constructE 150 = Except.error SpongeError.invalidConfig := by
  refine ⟨rfl, rfl, ?_, ?_⟩ <;> rfl

/-- C2 amended: the source constructor performs no validation — for every
digest size it succeeds, storing the size truncated to `unsigned int`, with
zero counter and zeroed state; for sizes inside (0,100) construction also
succeeds in the spec model with the same configuration. -/
theorem construct_total_amended (d : Nat) :
    (mkKeccak d).m_digestSize = d % U32 ∧
    (mkKeccak d).m_counter = 0 ∧
    (mkKeccak d).m_state = List.replicate 200 0 ∧
    (0 < d → d < 100 →
      constructE d = Except.ok
        { digestSize := d, state := List.replicate 200 0, counter := 0,
          finalized := false }) := by
  refine ⟨rfl, rfl, rfl, fun h1 h2 => ?_⟩
  simp [constructE, h1, h2]

/-- Witness for the amended C2 at digest size 32. -/
theorem construct_total_amended_witness :
    (mkKeccak 32).m_counter = 0 ∧
    constructE 32 = Except.ok
      { digestSize := 32, state := List.replicate 200 0, counter := 0,
        finalized := false } :=
  ⟨(construct_total_amended 32).2.1,
   (construct_total_amended 32).2.2.2 (by decide) (by decide)⟩

/-- C8: for every digest size below `2^29` — in particular the whole valid
range — `AlgorithmName` returns "Keccak-" followed by the decimal
representation of `8 * digestSize`, e.g. "Keccak-256" at digest size 32, and
each preset's static name equals the name the base accessor computes for that
preset's digest size; beyond that bound the `unsigned int` product wraps, so
a stored digest size of `2^31` yields "Keccak-0". -/
theorem algorithm_name_spec :
    (∀ e : KeccakRaw, e.m_digestSize < 536870912 →
      AlgorithmName e = "Keccak-" ++ Nat.repr (8 * e.m_digestSize)) ∧
    AlgorithmName (mkKeccak 32) = "Keccak-256" ∧
    Keccak_224_StaticAlgorithmName = AlgorithmName Keccak_224 ∧
    Keccak_256_StaticAlgorithmName = AlgorithmName Keccak_256 ∧
    Keccak_384_StaticAlgorithmName = AlgorithmName Keccak_384 ∧
    Keccak_512_StaticAlgorithmName = AlgorithmName Keccak_512 ∧
    AlgorithmName { m_digestSize := 2147483648, m_state := [], m_counter := 0 } =
      "Keccak-0" := by
  refine ⟨fun e hb => ?_, ?_, ?_, ?_, ?_, ?_, ?_⟩
  · have h : u32 (e.m_digestSize * 8) = 8 * e.m_digestSize := by
      unfold u32 U32
      omega
    rw [AlgorithmName, h]
  all_goals rfl

/-- Witness for C8 at the engine constructed with digest size 32. -/
theorem algorithm_name_spec_witness :
    AlgorithmName (mkKeccak 32) = "Keccak-" ++ Nat.repr (8 * (mkKeccak 32).m_digestSize) :=
  algorithm_name_spec.1 (mkKeccak 32) (by decide)

/-- C9: the four presets configure digest sizes 28, 32, 48 and 64 bytes, the
derived rates are 144, 136, 104 and 72 bytes, and no engine operation
(`Update`, `Restart`, `TruncatedFinal`) changes the digest size. -/
theorem preset_digest_sizes :
    DigestSize Keccak_224 = 28 ∧ DigestSize Keccak_256 = 32 ∧
    DigestSize Keccak_384 = 48 ∧ DigestSize Keccak_512 = 64 ∧
    keccak_r 28 = 144 ∧ keccak_r 32 = 136 ∧ keccak_r 48 = 104 ∧ keccak_r 64 = 72 ∧
    (∀ F e input e', updateE F e input = Except.ok e' → e'.digestSize = e.digestSize) ∧
    (∀ e : Engine, (restartE e).digestSize = e.digestSize) ∧
    (∀ F pad e size out e', finalizeE F pad e size = Except.ok (out, e') →
      e'.digestSize = e.digestSize) := by
  refine ⟨rfl, rfl, rfl, rfl, by decide, by decide, by decide, by decide,
    fun F e input e' h => ?_, fun e => rfl, fun F pad e size out e' h => ?_⟩
  · unfold updateE at h
    by_cases hf : e.finalized
    · simp [hf] at h
    · simp only [hf, if_false] at h
      cases h
      rfl
  · unfold finalizeE at h
    by_cases hf : e.finalized
    · simp [hf] at h
    · by_cases hs : e.digestSize < size
      · simp [hf, hs] at h
      · simp only [hf, hs, if_false] at h
        cases h
        rfl

/-- Witness for C9: applying the update-immutability conjunct at a concrete
engine. -/
theorem preset_digest_sizes_witness :
    (Engine.mk 32 (List.replicate 200 0) 0 false).digestSize = 32 := by
  have h := preset_digest_sizes.2.2.2.2.2.2.2.2.1 id
    (Engine.mk 32 (List.replicate 200 0) 0 false) []
    (Engine.mk 32 (List.replicate 200 0) 0 false) rfl
  exact h.trans rfl

/-- C10: the constructor accepts every digest size without validation and
`r()` is computed in `unsigned int` arithmetic: it equals
`(200 - 2d) mod 2^32`, so that for every `d > 100` the value wraps (the exact
difference `200 - 2d` is negative and differs from what `r()` returns, which
is never negative and never an error), and at `d = 101` it returns
`2^32 - 2`. -/
theorem rate_wraps_unsigned (d : Nat) (hd : d < U32) :
    ((keccak_r d : Int) = (200 - 2 * (d : Int)) % (U32 : Int)) ∧
    (100 < d → 200 - 2 * (d : Int) < 0 ∧ (keccak_r d : Int) ≠ 200 - 2 * (d : Int)) ∧
    (mkKeccak d).m_digestSize = d ∧
    keccak_r 101 = U32 - 2 := by
  unfold U32 at hd
  have h1 : (keccak_r d : Int) = (200 - 2 * (d : Int)) % (U32 : Int) := by
    unfold keccak_r u32sub u32 U32
    omega
  refine ⟨h1, fun h100 => ⟨by omega, ?_⟩, ?_, by decide⟩
  · rw [h1]
    unfold U32
    omega
  · simp only [mkKeccak, u32, U32]
    omega

/-- Witness for C10 at digest size 101: `r()` returns `2^32 - 2`. -/
theorem rate_wraps_unsigned_witness :
    (keccak_r 101 : Int) = (200 - 2 * (101 : Int)) % (U32 : Int) ∧
    keccak_r 101 = U32 - 2 :=
  ⟨(rate_wraps_unsigned 101 (by decide)).1,
   (rate_wraps_unsigned 101 (by decide)).2.2.2⟩

/-- Counter bound for one absorbed byte: a counter below the rate stays
below the rate. -/
theorem absorbStep_counter_lt (F : List Nat → List Nat) (r : Nat) (sc : List Nat × Nat)
    (b : Nat) (hr : 0 < r) (hc : sc.2 < r) : (absorbStep F r sc b).2 < r := by
  unfold absorbStep
  by_cases h : sc.2 + 1 = r
  · simpa [h] using hr
  · simp only [h, if_false]
    omega

/-- Counter bound along a whole absorb fold. -/
theorem foldl_absorb_counter_lt (F : List Nat → List Nat) (r : Nat) (l : List Nat) :
    ∀ p : List Nat × Nat, 0 < r → p.2 < r → (List.foldl (absorbStep F r) p l).2 < r := by
  induction l with
  | nil => exact fun p _ hc => hc
  | cons b t ih =>
    intro p hr hc
    rw [List.foldl_cons]
    exact ih _ hr (absorbStep_counter_lt F r p b hr hc)

/-- Absorbing one byte preserves the state length when the permutation
does. -/
theorem absorbStep_state_len (F : List Nat → List Nat) (r : Nat) (p : List Nat × Nat)
    (b : Nat) (hF : ∀ s, (F s).length = s.length) :
    (absorbStep F r p b).1.length = p.1.length := by
  unfold absorbStep
  by_cases h : p.2 + 1 = r <;> simp [h, hF]

/-- State length along a whole absorb fold. -/
theorem foldl_absorb_state_len (F : List Nat → List Nat) (r : Nat) (l : List Nat)
    (hF : ∀ s, (F s).length = s.length) :
    ∀ p : List Nat × Nat, (List.foldl (absorbStep F r) p l).1.length = p.1.length := by
  induction l with
  | nil => exact fun p => rfl
  | cons b t ih =>
    intro p
    rw [List.foldl_cons, ih _]
    exact absorbStep_state_len F r p b hF

/-- Padding preserves the state length. -/
theorem padBlock_length (pad r c : Nat) (st : List Nat) :
    (padBlock pad r c st).length = st.length := by
  simp [padBlock]

/-- The squeeze loop does not depend on the fuel once the fuel covers the
requested size. -/
theorem squeezeGo_fuel_eq (F : List Nat → List Nat) (r : Nat) (hr : 0 < r) :
    ∀ fuel fuel' size st, size ≤ fuel → size ≤ fuel' →
      squeezeGo F r fuel size st = squeezeGo F r fuel' size st := by
  intro fuel
  induction fuel with
  | zero =>
    intro fuel' size st h h'
    have hs : size = 0 := Nat.le_zero.mp h
    subst hs
    cases fuel' with
    | zero => rfl
    | succ f' => simp [squeezeGo]
  | succ f ih =>
    intro fuel' size st h h'
    cases fuel' with
    | zero =>
      have hs : size = 0 := Nat.le_zero.mp h'
      subst hs
      simp [squeezeGo]
    | succ f' =>
      by_cases hsr : size ≤ r
      · simp [squeezeGo, hsr]
      · simp only [squeezeGo, hsr, if_false]
        congr 1
        exact ih f' (size - r) (F st) (by omega) (by omega)

/-- The squeeze loop produces exactly the requested number of bytes. -/
theorem squeezeGo_length (F : List Nat → List Nat) (r : Nat)
    (hF : ∀ s, (F s).length = s.length) (hr : 0 < r) :
    ∀ fuel size st, size ≤ fuel → r ≤ st.length →
      (squeezeGo F r fuel size st).length = size := by
  intro fuel
  induction fuel with
  | zero =>
    intro size st h _
    have hs : size = 0 := Nat.le_zero.mp h
    subst hs
    rfl
  | succ f ih =>
    intro size st h hlen
    by_cases hsr : size ≤ r
    · rw [squeezeGo, if_pos hsr, List.length_take]
      omega
    · rw [squeezeGo, if_neg hsr, List.length_append, List.length_take,
        ih (size - r) (F st) (by omega) (by rw [hF]; exact hlen)]
      omega

/-- Squeeze is take-consistent: squeezing `n ≤ m` bytes yields the first `n`
bytes of squeezing `m` bytes from the same state. -/
theorem squeezeGo_take (F : List Nat → List Nat) (r : Nat)
    (hF : ∀ s, (F s).length = s.length) (hr : 0 < r) :
    ∀ fuel n m st, n ≤ m → m ≤ fuel → r ≤ st.length →
      squeezeGo F r fuel n st = (squeezeGo F r fuel m st).take n := by
  intro fuel
  induction fuel with
  | zero =>
    intro n m st hnm hm _
    have hm0 : m = 0 := Nat.le_zero.mp hm
    have hn0 : n = 0 := by omega
    subst hm0
    subst hn0
    rfl
  | succ f ih =>
    intro n m st hnm hm hlen
    have htr : (st.take r).length = r := by
      rw [List.length_take]
      omega
    by_cases hmr : m ≤ r
    · have hnr : n ≤ r := le_trans hnm hmr
      rw [squeezeGo, squeezeGo, if_pos hnr, if_pos hmr, List.take_take,
        Nat.min_eq_left hnm]
    · by_cases hnr : n ≤ r
      · rw [squeezeGo, squeezeGo, if_pos hnr, if_neg hmr,
          List.take_append_eq_append_take, htr]
        have h2 : n - r = 0 := by omega
        rw [h2, List.take_zero, List.append_nil, List.take_take, Nat.min_eq_left hnr]
      · rw [squeezeGo, squeezeGo, if_neg hnr, if_neg hmr,
          List.take_append_eq_append_take, htr, List.take_take,
          Nat.min_eq_right (by omega : r ≤ n)]
        congr 1
        exact ih (n - r) (m - r) (F st) (by omega) (by omega) (by rw [hF]; exact hlen)

/-- Update on an Absorbing engine always succeeds, with the folded state and
counter. -/
theorem updateE_ok (F : List Nat → List Nat) (e : Engine) (input : List Nat)
    (hf : e.finalized = false) :
    updateE F e input = Except.ok
      { digestSize := e.digestSize,
        state := (List.foldl (absorbStep F (rE e)) (e.state, e.counter) input).1,
        counter := (List.foldl (absorbStep F (rE e)) (e.state, e.counter) input).2,
        finalized := false } := by
  unfold updateE
  rw [hf]
  rfl

/-- Updating with a concatenation equals updating with the two halves in
sequence. -/
theorem updateE_append (F : List Nat → List Nat) (e : Engine) (a b : List Nat)
    (hf : e.finalized = false) :
    updateE F e (a ++ b) =
      Except.bind (updateE F e a) (fun e' => updateE F e' b) := by
  rw [updateE_ok F e a hf]
  rw [updateE_ok F e (a ++ b) hf]
  show _ = updateE F _ b
  rw [updateE_ok F _ b rfl]
  simp only [Except.ok.injEq]
  rw [List.foldl_append]
  rfl

/-- A chain of Update calls equals a single Update on the concatenated
chunks. -/
theorem updateChain_eq_flatten (F : List Nat → List Nat) :
    ∀ (chunks : List (List Nat)) (e : Engine), e.finalized = false →
      updateChain F e chunks = updateE F e chunks.flatten := by
  intro chunks
  induction chunks with
  | nil =>
    intro e hf
    show Except.ok e = updateE F e []
    rw [updateE_ok F e [] hf]
    cases e with
    | mk d s c f =>
      have hf' : f = false := hf
      subst hf'
      rfl
  | cons c cs ih =>
    intro e hf
    have hap : (c :: cs).flatten = c ++ cs.flatten := rfl
    rw [hap, updateE_append F e c cs.flatten hf]
    show updateChain F e (c :: cs) = _
    rw [updateChain, updateE_ok F e c hf]
    exact ih _ rfl

/-- Digest-size and counter bounds hold in every reachable engine state. -/
theorem reachable_counter_inv (F : List Nat → List Nat) (pad : Nat) (e : Engine)
    (h : ReachableE F pad e) :
    0 < e.digestSize ∧ e.digestSize < 100 ∧ e.counter < rE e := by
  induction h with
  | construct d e0 hc =>
    unfold constructE at hc
    split at hc
    · simp only [Except.ok.injEq] at hc
      subst hc
      rename_i hd
      refine ⟨hd.1, hd.2, ?_⟩
      show 0 < 200 - 2 * d
      omega
    · exact Except.noConfusion hc
  | update e e' data hre hu ih =>
    obtain ⟨h1, h2, h3⟩ := ih
    have hf : e.finalized = false := by
      cases hb : e.finalized with
      | false => rfl
      | true => simp [updateE, hb] at hu
    rw [updateE_ok F e data hf] at hu
    simp only [Except.ok.injEq] at hu
    subst hu
    refine ⟨h1, h2, ?_⟩
    show (List.foldl (absorbStep F (rE e)) (e.state, e.counter) data).2 < 200 - 2 * e.digestSize
    have hr : 0 < rE e := by
      show 0 < 200 - 2 * e.digestSize
      omega
    exact foldl_absorb_counter_lt F (rE e) data (e.state, e.counter) hr h3
  | restart e hre ih =>
    obtain ⟨h1, h2, _⟩ := ih
    refine ⟨h1, h2, ?_⟩
    show 0 < 200 - 2 * e.digestSize
    omega
  | finalize e e' out size hre hfin ih =>
    obtain ⟨h1, h2, _⟩ := ih
    unfold finalizeE at hfin
    split at hfin
    · exact Except.noConfusion hfin
    · split at hfin
      · exact Except.noConfusion hfin
      · simp only [Except.ok.injEq, Prod.mk.injEq] at hfin
        obtain ⟨_, he'⟩ := hfin
        subst he'
        refine ⟨h1, h2, ?_⟩
        show 0 < 200 - 2 * e.digestSize
        omega

/-- The state keeps its 200-byte length in every reachable engine state,
provided the permutation is length-preserving. -/
theorem reachable_state_len (F : List Nat → List Nat) (pad : Nat) (e : Engine)
    (hF : ∀ s, (F s).length = s.length) (h : ReachableE F pad e) :
    e.state.length = 200 := by
  induction h with
  | construct d e0 hc =>
    unfold constructE at hc
    split at hc
    · simp only [Except.ok.injEq] at hc
      subst hc
      exact List.length_replicate 200 0
    · exact Except.noConfusion hc
  | update e e' data hre hu ih =>
    have hf : e.finalized = false := by
      cases hb : e.finalized with
      | false => rfl
      | true => simp [updateE, hb] at hu
    rw [updateE_ok F e data hf] at hu
    simp only [Except.ok.injEq] at hu
    subst hu
    show (List.foldl (absorbStep F (rE e)) (e.state, e.counter) data).1.length = 200
    rw [foldl_absorb_state_len F (rE e) data hF (e.state, e.counter)]
    exact ih
  | restart e hre ih => exact List.length_replicate 200 0
  | finalize e e' out size hre hfin ih =>
    unfold finalizeE at hfin
    split at hfin
    · exact Except.noConfusion hfin
    · split at hfin
      · exact Except.noConfusion hfin
      · simp only [Except.ok.injEq, Prod.mk.injEq] at hfin
        obtain ⟨_, he'⟩ := hfin
        subst he'
        show (F (padBlock pad (rE e) e.counter e.state)).length = 200
        rw [hF, padBlock_length]
        exact ih

/-- C3: on an Absorbing reachable engine, finalize with a requested size
greater than the digest size is rejected with the defined invalid-size error
(never a silent clamp), and for every size up to the digest size it succeeds
and writes exactly the requested number of bytes. -/
theorem truncated_final_size_check (F : List Nat → List Nat) (pad : Nat) (e : Engine)
    (size : Nat) (hF : ∀ s, (F s).length = s.length) (hre : ReachableE F pad e)
    (hf : e.finalized = false) :
    (e.digestSize < size → finalizeE F pad e size = Except.error SpongeError.invalidSize) ∧
    (size ≤ e.digestSize →
      ∃ out e', finalizeE F pad e size = Except.ok (out, e') ∧ out.length = size) := by
  obtain ⟨hd0, hd100, hcnt⟩ := reachable_counter_inv F pad e hre
  have hlen := reachable_state_len F pad e hF hre
  constructor
  · intro hgt
    unfold finalizeE
    rw [hf]
    simp [hgt]
  · intro hle
    have hnlt : ¬ e.digestSize < size := Nat.not_lt.mpr hle
    refine ⟨squeezeOut F (rE e) size (F (padBlock pad (rE e) e.counter e.state)),
      ⟨e.digestSize, F (padBlock pad (rE e) e.counter e.state), 0, true⟩, ?_, ?_⟩
    · unfold finalizeE
      rw [hf]
      simp [hnlt]
    · have hr : 0 < rE e := by
        show 0 < 200 - 2 * e.digestSize
        omega
      have hstlen : rE e ≤ (F (padBlock pad (rE e) e.counter e.state)).length := by
        rw [hF, padBlock_length, hlen]
        show 200 - 2 * e.digestSize ≤ 200
        omega
      exact squeezeGo_length F (rE e) hF hr size size _ le_rfl hstlen

/-- Witness for C3: a reachable Keccak-256 engine rejects a 33-byte request
and serves a 32-byte request with exactly 32 bytes of output. -/
theorem truncated_final_size_check_witness :
    finalizeE id 1 (Engine.mk 32 (List.replicate 200 0) 0 false) 33 =
      Except.error SpongeError.invalidSize ∧
    (∃ out e', finalizeE id 1 (Engine.mk 32 (List.replicate 200 0) 0 false) 32 =
      Except.ok (out, e') ∧ out.length = 32) :=
  ⟨(truncated_final_size_check id 1 (Engine.mk 32 (List.replicate 200 0) 0 false) 33
      (fun _ => rfl) (ReachableE.construct 32 _ rfl) rfl).1 (by decide),
   (truncated_final_size_check id 1 (Engine.mk 32 (List.replicate 200 0) 0 false) 32
      (fun _ => rfl) (ReachableE.construct 32 _ rfl) rfl).2 (by decide)⟩

/-- C4: the engine is a two-state machine — any Update or finalize on a
Finalized engine is rejected with the defined state-machine error, and
Restart returns a Finalized engine to Absorbing. -/
theorem finalized_state_rejected (F : List Nat → List Nat) (pad : Nat) (e : Engine)
    (data : List Nat) (size : Nat) (hf : e.finalized = true) :
    updateE F e data = Except.error SpongeError.finalizedState ∧
    finalizeE F pad e size = Except.error SpongeError.finalizedState ∧
    (restartE e).finalized = false := by
  refine ⟨?_, ?_, rfl⟩
  · unfold updateE
    rw [hf]
    rfl
  · unfold finalizeE
    rw [hf]
    rfl

/-- Witness for C4: a finalized engine rejects both operations and restart
reopens it. -/
theorem finalized_state_rejected_witness :
    updateE id (Engine.mk 32 (List.replicate 200 0) 0 true) [7] =
      Except.error SpongeError.finalizedState ∧
    finalizeE id 1 (Engine.mk 32 (List.replicate 200 0) 0 true) 32 =
      Except.error SpongeError.finalizedState ∧
    (restartE (Engine.mk 32 (List.replicate 200 0) 0 true)).finalized = false :=
  finalized_state_rejected id 1 (Engine.mk 32 (List.replicate 200 0) 0 true) [7] 32 rfl

/-- C5: absorbing a message split into any sequence of chunks equals
absorbing the whole message in one Update call — also after a subsequent
finalize — and a zero-length Update changes nothing. -/
theorem update_chaining (F : List Nat → List Nat) (pad : Nat) (e : Engine)
    (chunks : List (List Nat)) (size : Nat) (hf : e.finalized = false) :
    updateChain F e chunks = updateE F e chunks.flatten ∧
    updateE F e [] = Except.ok e ∧
    Except.bind (updateChain F e chunks) (fun e' => finalizeE F pad e' size) =
      Except.bind (updateE F e chunks.flatten) (fun e' => finalizeE F pad e' size) := by
  have h1 := updateChain_eq_flatten F chunks e hf
  refine ⟨h1, ?_, by rw [h1]⟩
  rw [updateE_ok F e [] hf]
  cases e with
  | mk d s c f =>
    have hf' : f = false := hf
    subst hf'
    rfl

/-- Witness for C5: chunked absorption of [1,2],[3] agrees with one-shot
absorption of [1,2,3] on a fresh Keccak-256 engine. -/
theorem update_chaining_witness :
    updateChain id (Engine.mk 32 (List.replicate 200 0) 0 false) [[1, 2], [3]] =
      updateE id (Engine.mk 32 (List.replicate 200 0) 0 false) [[1, 2], [3]].flatten ∧
    updateE id (Engine.mk 32 (List.replicate 200 0) 0 false) [] =
      Except.ok (Engine.mk 32 (List.replicate 200 0) 0 false) ∧
    Except.bind (updateChain id (Engine.mk 32 (List.replicate 200 0) 0 false) [[1, 2], [3]])
        (fun e' => finalizeE id 1 e' 32) =
      Except.bind (updateE id (Engine.mk 32 (List.replicate 200 0) 0 false) [[1, 2], [3]].flatten)
        (fun e' => finalizeE id 1 e' 32) :=
  update_chaining id 1 (Engine.mk 32 (List.replicate 200 0) 0 false) [[1, 2], [3]] 32 rfl

/-- C6: from one Absorbing reachable engine state, finalize with a smaller
size returns exactly the first bytes of the full-digest output, across
multiple squeeze blocks as well. -/
theorem squeeze_take_consistent (F : List Nat → List Nat) (pad : Nat) (e : Engine)
    (size : Nat) (hF : ∀ s, (F s).length = s.length) (hre : ReachableE F pad e)
    (hf : e.finalized = false) (h0 : 0 < size) (hlt : size < e.digestSize) :
    ∃ out1 out2 e1 e2,
      finalizeE F pad e size = Except.ok (out1, e1) ∧
      finalizeE F pad e e.digestSize = Except.ok (out2, e2) ∧
      out1 = out2.take size := by
  obtain ⟨hd0, hd100, hcnt⟩ := reachable_counter_inv F pad e hre
  have hlen := reachable_state_len F pad e hF hre
  refine ⟨squeezeOut F (rE e) size (F (padBlock pad (rE e) e.counter e.state)),
    squeezeOut F (rE e) e.digestSize (F (padBlock pad (rE e) e.counter e.state)),
    ⟨e.digestSize, F (padBlock pad (rE e) e.counter e.state), 0, true⟩,
    ⟨e.digestSize, F (padBlock pad (rE e) e.counter e.state), 0, true⟩, ?_, ?_, ?_⟩
  · unfold finalizeE
    rw [hf]
    simp [Nat.not_lt.mpr (le_of_lt hlt)]
  · unfold finalizeE
    rw [hf]
    simp
  · have hr : 0 < rE e := by
      show 0 < 200 - 2 * e.digestSize
      omega
    have hstlen : rE e ≤ (F (padBlock pad (rE e) e.counter e.state)).length := by
      rw [hF, padBlock_length, hlen]
      show 200 - 2 * e.digestSize ≤ 200
      omega
    unfold squeezeOut
    rw [squeezeGo_fuel_eq F (rE e) hr size e.digestSize size _ le_rfl (le_of_lt hlt)]
    exact squeezeGo_take F (rE e) hF hr e.digestSize size e.digestSize _
      (le_of_lt hlt) le_rfl hstlen

/-- Witness for C6: on a fresh Keccak-256 engine, the 16-byte digest equals
the first 16 bytes of the 32-byte digest. -/
theorem squeeze_take_consistent_witness :
    ∃ out1 out2 e1 e2,
      finalizeE id 1 (Engine.mk 32 (List.replicate 200 0) 0 false) 16 =
        Except.ok (out1, e1) ∧
      finalizeE id 1 (Engine.mk 32 (List.replicate 200 0) 0 false) 32 =
        Except.ok (out2, e2) ∧
      out1 = out2.take 16 :=
  squeeze_take_consistent id 1 (Engine.mk 32 (List.replicate 200 0) 0 false) 16
    (fun _ => rfl) (ReachableE.construct 32 _ rfl) rfl (by decide) (by decide)

/-- C7: in every reachable engine state the counter is strictly below the
rate; it is 0 right after construction and after Restart, and absorbing the
byte that fills a block runs the permutation and resets the counter to 0. -/
theorem counter_stays_below_rate (F : List Nat → List Nat) (pad : Nat) (e : Engine)
    (hre : ReachableE F pad e) :
    e.counter < rE e ∧
    (∀ d e0, constructE d = Except.ok e0 → e0.counter = 0) ∧
    (restartE e).counter = 0 ∧
    (∀ r st c b, c + 1 = r →
      absorbStep F r (st, c) b = (F (st.set c ((st.getD c 0).xor (b % 256))), 0)) := by
  refine ⟨(reachable_counter_inv F pad e hre).2.2, fun d e0 hc => ?_, rfl,
    fun r st c b h => ?_⟩
  · unfold constructE at hc
    split at hc
    · simp only [Except.ok.injEq] at hc
      subst hc
      rfl
    · exact Except.noConfusion hc
  · simp [absorbStep, h]

/-- Witness for C7 on a freshly constructed Keccak-256 engine. -/
theorem counter_stays_below_rate_witness :
    (Engine.mk 32 (List.replicate 200 0) 0 false).counter <
      rE (Engine.mk 32 (List.replicate 200 0) 0 false) :=
  (counter_stays_below_rate id 1 (Engine.mk 32 (List.replicate 200 0) 0 false)
    (ReachableE.construct 32 _ rfl)).1

end Keccak
